import Mathlib

/-!
Shallow embedding of `generateProxy.js` (proxy manager).

JavaScript strings are modelled as `List Char` (`JSStr`); the string
operations used by the source (`split` on a one-character separator,
`trim`, `startsWith`, `includes`, `join`, split on the scheme separator) are defined
below with JavaScript semantics.  File-system state is a `Store` record
holding the contents of `.env` and of `output/valid_proxies.txt`
(`Option JSStr`, `none` = absent file).  Network I/O (axios) is an
oracle argument: `net : JSStr → AgentKind → Except Unit AxiosResponse`
gives the outcome of the health-check request sent through a given
proxy, and source fetches are a list of per-source outcomes.
-/

abbrev JSStr := List Char

/-- JavaScript `s.split(c)` for a single-character separator `c`. -/
def splitOnChar (c : Char) : JSStr → List JSStr
  | [] => [[]]
  | x :: xs =>
    match splitOnChar c xs with
    | [] => [[]]
    | r :: rs => if x = c then [] :: r :: rs else (x :: r) :: rs

/-- JavaScript `list.join(c)` for a single-character separator. -/
def joinChar (c : Char) : List JSStr → JSStr
  | [] => []
  | [l] => l
  | l :: ls => l ++ c :: joinChar c ls

/-- JavaScript `s.trim()` (leading and trailing whitespace removed). -/
def jsTrim (s : JSStr) : JSStr :=
  ((s.dropWhile Char.isWhitespace).reverse.dropWhile Char.isWhitespace).reverse

/-- JavaScript `s.startsWith(pre)`. -/
def jsStartsWith (pre s : JSStr) : Bool :=
  match pre, s with
  | [], _ => true
  | _ :: _, [] => false
  | p :: ps, x :: xs => p = x && jsStartsWith ps xs

/-- JavaScript `s.includes(pat)` (substring occurrence). -/
def jsIncludes (pat : JSStr) : JSStr → Bool
  | [] => jsStartsWith pat []
  | x :: xs => jsStartsWith pat (x :: xs) || jsIncludes pat xs

/-- JavaScript `s.split(pat)[0]`: the characters before the first
occurrence of `pat` (all of `s` if `pat` does not occur). -/
def takeUntilSub (pat : JSStr) : JSStr → JSStr
  | [] => []
  | x :: xs => if jsStartsWith pat (x :: xs) then [] else x :: takeUntilSub pat xs

/-- The key `ENV_KEY` (the string PROXY_SERVER) from the source. -/
def ENV_KEY : JSStr := ['P','R','O','X','Y','_','S','E','R','V','E','R']

/-- The search and filter pattern used by the source: `ENV_KEY` followed
by an equals sign. -/
def keyEq : JSStr := ENV_KEY ++ ['=']

-- sanity checks for the string model
example : splitOnChar '\n' "a\nb".toList = ["a".toList, "b".toList] := by decide
example : splitOnChar '\n' ([] : JSStr) = [[]] := by decide
example : joinChar '\n' ["a".toList, "b".toList] = "a\nb".toList := by decide
example : jsTrim " a b ".toList = "a b".toList := by decide
example : jsStartsWith keyEq "PROXY_SERVER=x".toList = true := by decide
example : jsIncludes [':','/','/'] "http://x".toList = true := by decide
example : jsIncludes [':','/','/'] "1.2.3.4:80".toList = false := by decide
example : takeUntilSub [':','/','/'] "https://x".toList = "https".toList := by decide

/-! ## Data model: file-system store and network oracles -/

/-- The persistent state touched by the program: the contents of `.env`
and of `output/valid_proxies.txt` (`none` = file absent). -/
structure Store where
  envFile : Option JSStr
  poolFile : Option JSStr
deriving DecidableEq, Repr

/-- An axios response: HTTP status and body text (`resp.status`, `resp.data`). -/
structure AxiosResponse where
  status : Nat
  body : JSStr
deriving DecidableEq, Repr

/-- Which proxy agent `validateSingleProxy` constructs
(`HttpsProxyAgent` vs `HttpProxyAgent`). -/
inductive AgentKind
  | httpsAgent
  | httpAgent
deriving DecidableEq, Repr

/-- The health-check network oracle: outcome of
`axios.get(TEST_URL, {timeout, httpAgent, httpsAgent})` routed through a
given proxy URL with a given agent.  `Except.error` stands for any
thrown exception (timeout, connection refused, DNS failure, ...). -/
abbrev HealthNet := JSStr → AgentKind → Except Unit AxiosResponse

/-! ## Embedded source functions -/

/-- The scan of `getCurrentProxyFromEnv` over the lines of `.env`: the
first line whose trimmed form starts with the key pattern yields entry 1
of the split of the trimmed line on '=' . -/
def findProxyLine : List JSStr → Option JSStr
  | [] => none
  | l :: rest =>
    let line := jsTrim l
    if jsStartsWith keyEq line then (splitOnChar '=' line).get? 1
    else findProxyLine rest

/-- Embeds `getCurrentProxyFromEnv()`: load the current proxy from
`.env`; `none` if the file is absent or no line matches. -/
def getCurrentProxyFromEnv (envFile : Option JSStr) : Option JSStr :=
  match envFile with
  | none => none
  | some content => findProxyLine (splitOnChar '\n' content)

/-- Embeds `setEnvProxy(proxyUrl)`: drop every line starting with the
key pattern, append the new key line, and write the joined
lines back; returns the new `.env` contents. -/
def setEnvProxy (proxyUrl : JSStr) (envFile : Option JSStr) : JSStr :=
  let envLines := match envFile with
    | none => []
    | some content => splitOnChar '\n' content
  let envLines := envLines.filter (fun line => !jsStartsWith keyEq line)
  joinChar '\n' (envLines ++ [keyEq ++ proxyUrl])

/-- The agent chosen by `validateSingleProxy`: an HTTPS tunneling agent
when the protocol part before the scheme separator equals https,
otherwise an HTTP agent. -/
def agentFor (proxyUrl : JSStr) : AgentKind :=
  let protocol := takeUntilSub [':','/','/'] proxyUrl
  if protocol = ['h','t','t','p','s'] then .httpsAgent else .httpAgent

/-- Embeds `validateSingleProxy(proxyUrl)`: issue the health-check request
through the proxy; `true` iff a response with status 200 arrives, every
thrown exception is caught and yields `false`. -/
def validateSingleProxy (net : HealthNet) (proxyUrl : JSStr) : Bool :=
  match net proxyUrl (agentFor proxyUrl) with
  | .ok resp => if resp.status == 200 then true else false
  | .error _ => false

/-- The candidate lines one GitHub source contributes inside
`fetchGitHubProxies`: on a thrown exception nothing; on a response,
`resp.data.split('\n').map(trim).filter(Boolean)` provided
`resp.status === 200 && resp.data` (an empty body is falsy). -/
def sourceLines (o : Except Unit AxiosResponse) : List JSStr :=
  match o with
  | .error _ => []
  | .ok resp =>
    if resp.status == 200 && resp.body ≠ [] then
      ((splitOnChar '\n' resp.body).map jsTrim).filter (fun l => l ≠ [])
    else []

/-- Per-line normalization in `fetchGitHubProxies`: a line without
`://` is prefixed with `http://`, otherwise kept as is. -/
def normalizeLine (line : JSStr) : JSStr :=
  if !jsIncludes [':','/','/'] line then ['h','t','t','p',':','/','/'] ++ line
  else line

/-- Models the add operation on the JS `Set` of proxies: insertion-ordered,
first occurrence wins. -/
def addProxyLine (acc : List JSStr) (line : JSStr) : List JSStr :=
  let x := normalizeLine line
  if x ∈ acc then acc else acc ++ [x]

/-- Embeds `fetchGitHubProxies()` as a function of the per-source fetch
outcomes (one `Except` per URL in `GITHUB_SOURCES`): accumulate the
normalized lines of every successful source into the `Set`, then
`[...allProxies]`. -/
def fetchGitHubProxies (outcomes : List (Except Unit AxiosResponse)) : List JSStr :=
  outcomes.foldl (fun acc o => (sourceLines o).foldl addProxyLine acc) []

/-- The loop body of `validateProxies`: `valid` is the accumulator;
stop as soon as `valid.length >= 100`, otherwise test the next proxy
and push it on success. -/
def validateProxiesGo (net : HealthNet) : List JSStr → List JSStr → List JSStr
  | [], valid => valid
  | p :: rest, valid =>
    if valid.length ≥ 100 then valid
    else if validateSingleProxy net p then validateProxiesGo net rest (valid ++ [p])
    else validateProxiesGo net rest valid

/-- Embeds `validateProxies(proxyList)`: collect the proxies that validate,
stopping once 100 are found. -/
def validateProxies (net : HealthNet) (proxyList : List JSStr) : List JSStr :=
  validateProxiesGo net proxyList []

/-- Embeds `scrapeValidateAndInject()`: fetch, validate, write the pool file,
pick `valid[Math.floor(Math.random()*valid.length)]` (modelled by the
index `randIdx`), inject it into `.env`.  Returns the JS return value
and the new store. -/
def scrapeValidateAndInject (net : HealthNet)
    (srcOutcomes : List (Except Unit AxiosResponse)) (randIdx : Nat)
    (store : Store) : Bool × Store :=
  let allProxies := fetchGitHubProxies srcOutcomes
  if allProxies.length = 0 then (false, store)
  else
    let valid := validateProxies net allProxies
    if valid.length = 0 then (false, store)
    else
      let store1 : Store := { store with poolFile := some (joinChar '\n' valid) }
      let chosen := valid.getD randIdx []
      let store2 : Store := { store1 with envFile := some (setEnvProxy chosen store1.envFile) }
      (true, store2)

/-- Embeds `checkCurrentProxy()`: re-validate the proxy currently in `.env`
(`!currentProxy` is true for a missing key and for an empty value);
on failure or absence run a full refresh. -/
def checkCurrentProxy (net : HealthNet)
    (srcOutcomes : List (Except Unit AxiosResponse)) (randIdx : Nat)
    (store : Store) : Store :=
  match getCurrentProxyFromEnv store.envFile with
  | none => (scrapeValidateAndInject net srcOutcomes randIdx store).2
  | some currentProxy =>
    if currentProxy = [] then (scrapeValidateAndInject net srcOutcomes randIdx store).2
    else if validateSingleProxy net currentProxy then store
    else (scrapeValidateAndInject net srcOutcomes randIdx store).2

/-- The lines `setEnvProxy` starts from: `[]` when `.env` is absent,
else its contents split on newlines. -/
def envLinesOf (envFile : Option JSStr) : List JSStr :=
  match envFile with
  | none => []
  | some content => splitOnChar '\n' content

/-! ## Concrete fixtures used by the witness theorems -/

/-- A sample proxy endpoint. -/
def exProxy : JSStr := "http://1.2.3.4:8080".toList

/-- A health-check oracle under which only `exProxy` answers 200. -/
def exNet : HealthNet :=
  fun url _ => if url = exProxy then Except.ok ⟨200, []⟩ else Except.error ()

/-- A successful source fetch carrying two candidate lines. -/
def exResp : AxiosResponse := ⟨200, "1.2.3.4:8080\n5.6.7.8:3128".toList⟩

/-- Source outcomes: one source succeeds, the other throws. -/
def exOutcomes : List (Except Unit AxiosResponse) := [.ok exResp, .error ()]

/-- A store whose `.env` already names `exProxy`. -/
def exStore : Store := ⟨some (keyEq ++ exProxy), none⟩

/-! ## Lemmas about `validateProxies` -/

lemma validateProxiesGo_eq (net : HealthNet) (l : List JSStr) :
    ∀ acc : List JSStr,
      validateProxiesGo net l acc
        = acc ++ (l.filter (validateSingleProxy net)).take (100 - acc.length) := by
  induction l with
  | nil => intro acc; simp [validateProxiesGo]
  | cons p rest ih =>
    intro acc
    by_cases hlen : acc.length ≥ 100
    · have h0 : 100 - acc.length = 0 := Nat.sub_eq_zero_of_le hlen
      simp [validateProxiesGo, hlen, h0]
    · have hlt : acc.length < 100 := Nat.lt_of_not_le hlen
      by_cases hok : validateSingleProxy net p = true
      · have hsub : 100 - acc.length = (100 - (acc.length + 1)) + 1 := by omega
        simp only [validateProxiesGo, hlen, if_false, hok, if_true, ih,
          List.filter_cons, List.length_append, List.length_cons]
        rw [hsub]
        simp [List.take_succ_cons, List.append_assoc]
      · simp [validateProxiesGo, hlen, hok, ih, List.filter_cons]

lemma validateProxies_eq_take (net : HealthNet) (l : List JSStr) :
    validateProxies net l = (l.filter (validateSingleProxy net)).take 100 := by
  simpa using validateProxiesGo_eq net l []

/-! ## Lemmas about `fetchGitHubProxies` -/

lemma mem_addProxyLine {x : JSStr} (acc : List JSStr) (line : JSStr) :
    x ∈ addProxyLine acc line ↔ x ∈ acc ∨ x = normalizeLine line := by
  unfold addProxyLine
  by_cases h : normalizeLine line ∈ acc
  · simp only [h, if_true]
    constructor
    · exact fun hx => Or.inl hx
    · rintro (hx | rfl)
      · exact hx
      · exact h
  · simp [h]

lemma nodup_addProxyLine {acc : List JSStr} (line : JSStr) (h : acc.Nodup) :
    (addProxyLine acc line).Nodup := by
  unfold addProxyLine
  by_cases hm : normalizeLine line ∈ acc
  · simpa [hm] using h
  · simp only [hm, if_false]
    exact List.Nodup.append h (List.nodup_singleton _) (by simpa using hm)

lemma mem_foldl_addProxyLine {x : JSStr} (lines : List JSStr) :
    ∀ acc : List JSStr,
      (x ∈ lines.foldl addProxyLine acc ↔ x ∈ acc ∨ ∃ l ∈ lines, normalizeLine l = x) := by
  induction lines with
  | nil => intro acc; simp
  | cons l rest ih =>
    intro acc
    simp only [List.foldl_cons, ih, mem_addProxyLine, List.mem_cons]
    constructor
    · rintro ((hx | rfl) | ⟨l', hl', rfl⟩)
      · exact Or.inl hx
      · exact Or.inr ⟨l, Or.inl rfl, rfl⟩
      · exact Or.inr ⟨l', Or.inr hl', rfl⟩
    · rintro (hx | ⟨l', (rfl | hl'), rfl⟩)
      · exact Or.inl (Or.inl hx)
      · exact Or.inl (Or.inr rfl)
      · exact Or.inr ⟨l', hl', rfl⟩

lemma nodup_foldl_addProxyLine (lines : List JSStr) :
    ∀ acc : List JSStr, acc.Nodup → (lines.foldl addProxyLine acc).Nodup := by
  induction lines with
  | nil => intro acc h; simpa
  | cons l rest ih =>
    intro acc h
    exact ih _ (nodup_addProxyLine l h)

lemma mem_fetch_aux {x : JSStr} (outs : List (Except Unit AxiosResponse)) :
    ∀ acc : List JSStr,
      (x ∈ outs.foldl (fun acc o => (sourceLines o).foldl addProxyLine acc) acc
        ↔ x ∈ acc ∨ ∃ o ∈ outs, ∃ l ∈ sourceLines o, normalizeLine l = x) := by
  induction outs with
  | nil => intro acc; simp
  | cons o rest ih =>
    intro acc
    simp only [List.foldl_cons, ih, mem_foldl_addProxyLine, List.mem_cons]
    constructor
    · rintro ((hx | ⟨l, hl, rfl⟩) | ⟨o', ho', l, hl, rfl⟩)
      · exact Or.inl hx
      · exact Or.inr ⟨o, Or.inl rfl, l, hl, rfl⟩
      · exact Or.inr ⟨o', Or.inr ho', l, hl, rfl⟩
    · rintro (hx | ⟨o', (rfl | ho'), l, hl, rfl⟩)
      · exact Or.inl (Or.inl hx)
      · exact Or.inl (Or.inr ⟨l, hl, rfl⟩)
      · exact Or.inr ⟨o', ho', l, hl, rfl⟩

lemma mem_fetchGitHubProxies {x : JSStr} (outs : List (Except Unit AxiosResponse)) :
    x ∈ fetchGitHubProxies outs
      ↔ ∃ o ∈ outs, ∃ l ∈ sourceLines o, normalizeLine l = x := by
  unfold fetchGitHubProxies
  simpa using mem_fetch_aux outs []

lemma nodup_fetch_aux (outs : List (Except Unit AxiosResponse)) :
    ∀ acc : List JSStr, acc.Nodup →
      (outs.foldl (fun acc o => (sourceLines o).foldl addProxyLine acc) acc).Nodup := by
  induction outs with
  | nil => intro acc h; simpa
  | cons o rest ih =>
    intro acc h
    exact ih _ (nodup_foldl_addProxyLine _ _ h)

lemma nodup_fetchGitHubProxies (outs : List (Except Unit AxiosResponse)) :
    (fetchGitHubProxies outs).Nodup := by
  unfold fetchGitHubProxies
  exact nodup_fetch_aux outs [] List.nodup_nil

/-! ## Lemmas about the string model: `split`/`join`/`trim` -/

lemma splitOnChar_ne_nil (c : Char) (s : JSStr) : splitOnChar c s ≠ [] := by
  cases s with
  | nil => simp [splitOnChar]
  | cons x xs =>
    simp only [splitOnChar]
    cases h : splitOnChar c xs with
    | nil => simp
    | cons r rs =>
      by_cases hx : x = c <;> simp [hx]

lemma splitOnChar_eq_single {c : Char} {s : JSStr} (h : c ∉ s) :
    splitOnChar c s = [s] := by
  induction s with
  | nil => rfl
  | cons x xs ih =>
    have hx : x ≠ c := fun hxc => h (by simp [hxc])
    have hxs : c ∉ xs := fun hc => h (List.mem_cons_of_mem _ hc)
    simp [splitOnChar, ih hxs, hx]

lemma splitOnChar_append_cons {c : Char} {l : JSStr} (h : c ∉ l) (rest : JSStr) :
    splitOnChar c (l ++ c :: rest) = l :: splitOnChar c rest := by
  induction l with
  | nil =>
    simp only [List.nil_append, splitOnChar]
    cases hr : splitOnChar c rest with
    | nil => exact absurd hr (splitOnChar_ne_nil c rest)
    | cons r rs => simp
  | cons x xs ih =>
    have hx : x ≠ c := fun hxc => h (by simp [hxc])
    have hxs : c ∉ xs := fun hc => h (List.mem_cons_of_mem _ hc)
    rw [List.cons_append]
    simp only [splitOnChar]
    rw [ih hxs]
    simp [hx]

lemma mem_splitOnChar_not_mem {c : Char} {s l : JSStr} (h : l ∈ splitOnChar c s) :
    c ∉ l := by
  induction s generalizing l with
  | nil =>
    simp [splitOnChar] at h
    simp [h]
  | cons x xs ih =>
    simp only [splitOnChar] at h
    cases hr : splitOnChar c xs with
    | nil => exact absurd hr (splitOnChar_ne_nil c xs)
    | cons r rs =>
      rw [hr] at h
      by_cases hx : x = c
      · simp only [hx, if_true, List.mem_cons] at h
        rcases h with rfl | h
        · simp
        · exact ih (hr ▸ List.mem_cons.mpr h)
      · simp only [hx, if_false, List.mem_cons] at h
        rcases h with rfl | h
        · intro hc
          rcases List.mem_cons.mp hc with hc | hc
          · exact hx hc.symm
          · exact ih (hr ▸ List.mem_cons_self r rs) hc
        · exact ih (hr ▸ List.mem_cons_of_mem r h)

lemma splitOnChar_joinChar {c : Char} {ls : List JSStr} (hne : ls ≠ [])
    (h : ∀ l ∈ ls, c ∉ l) : splitOnChar c (joinChar c ls) = ls := by
  induction ls with
  | nil => exact absurd rfl hne
  | cons l rest ih =>
    cases rest with
    | nil =>
      simp only [joinChar]
      exact splitOnChar_eq_single (h l (List.mem_cons_self _ _))
    | cons m t =>
      have hl : c ∉ l := h l (List.mem_cons_self _ _)
      have hrest : ∀ x ∈ m :: t, c ∉ x := fun x hx => h x (List.mem_cons_of_mem _ hx)
      show splitOnChar c (l ++ c :: joinChar c (m :: t)) = l :: m :: t
      rw [splitOnChar_append_cons hl, ih (by simp) hrest]

lemma jsStartsWith_append (pre s : JSStr) : jsStartsWith pre (pre ++ s) = true := by
  induction pre with
  | nil => rfl
  | cons p ps ih => simp [jsStartsWith, ih]

lemma dropWhile_eq_self_of_trim {p : JSStr} (h : jsTrim p = p) :
    p.dropWhile Char.isWhitespace = p ∧
      p.reverse.dropWhile Char.isWhitespace = p.reverse := by
  unfold jsTrim at h
  set a := p.dropWhile Char.isWhitespace with ha
  set b := a.reverse.dropWhile Char.isWhitespace with hb
  have hlenb : b.length ≤ a.length := by
    calc b.length ≤ a.reverse.length := (List.dropWhile_suffix _).length_le
    _ = a.length := List.length_reverse a
  have hlena : a.length ≤ p.length := (List.dropWhile_suffix _).length_le
  have hblen : b.length = p.length := by
    have := congrArg List.length h
    simpa using this
  have haeq : a = p := by
    have hsub : a <:+ p := List.dropWhile_suffix _
    exact List.IsSuffix.eq_of_length hsub (le_antisymm hlena (hblen ▸ hlenb))
  refine ⟨haeq, ?_⟩
  have hbrev : b = p.reverse := by
    have : b.reverse = p := h
    calc b = b.reverse.reverse := (List.reverse_reverse b).symm
    _ = p.reverse := by rw [this]
  calc p.reverse.dropWhile Char.isWhitespace
      = a.reverse.dropWhile Char.isWhitespace := by rw [haeq]
  _ = p.reverse := hbrev

lemma dropWhile_append_of_ne_nil {q : Char → Bool} {l : JSStr}
    (h : l.dropWhile q = l) (hne : l ≠ []) (r : JSStr) :
    (l ++ r).dropWhile q = l ++ r := by
  cases l with
  | nil => exact absurd rfl hne
  | cons x xs =>
    have hx : q x = false := by
      by_contra hq
      have hq' : q x = true := by
        cases hqx : q x with
        | false => exact absurd hqx hq
        | true => rfl
      rw [List.dropWhile_cons, hq', if_pos rfl] at h
      have := congrArg List.length h
      have hle := (List.dropWhile_suffix (l := xs) q).length_le
      simp at this
      omega
    rw [List.cons_append, List.dropWhile_cons, hx]
    simp

/-- Trimming fixes `keyEq ++ p` when `p` is nonempty and already trimmed. -/
lemma jsTrim_keyEq_append {p : JSStr} (hne : p ≠ []) (ht : jsTrim p = p) :
    jsTrim (keyEq ++ p) = keyEq ++ p := by
  obtain ⟨_, hrev⟩ := dropWhile_eq_self_of_trim ht
  have hd1 : (keyEq ++ p).dropWhile Char.isWhitespace = keyEq ++ p := by
    have hP : 'P'.isWhitespace = false := by decide
    show (('P' :: (['R','O','X','Y','_','S','E','R','V','E','R'] ++ ['='])) ++ p).dropWhile
        Char.isWhitespace = _
    rw [List.cons_append, List.dropWhile_cons, hP]
    simp [keyEq, ENV_KEY]
  have hpne : p.reverse ≠ [] := by simpa using hne
  have hd2 : (p.reverse ++ keyEq.reverse).dropWhile Char.isWhitespace
      = p.reverse ++ keyEq.reverse :=
    dropWhile_append_of_ne_nil hrev hpne _
  unfold jsTrim
  rw [hd1, List.reverse_append, hd2, List.reverse_append, List.reverse_reverse,
    List.reverse_reverse]

/-! ## Lemmas about the `.env` store functions -/

lemma setEnvProxy_eq (proxyUrl : JSStr) (envFile : Option JSStr) :
    setEnvProxy proxyUrl envFile
      = joinChar '\n'
          ((envLinesOf envFile).filter (fun line => !jsStartsWith keyEq line)
            ++ [keyEq ++ proxyUrl]) := by
  cases envFile <;> rfl

lemma newline_not_mem_envLinesOf {envFile : Option JSStr} {l : JSStr}
    (h : l ∈ envLinesOf envFile) : '\n' ∉ l := by
  cases envFile with
  | none => simp [envLinesOf] at h
  | some content => exact mem_splitOnChar_not_mem h

/-- Splitting the file written by `setEnvProxy` back into lines recovers
the filtered old lines followed by the new `PROXY_SERVER=` line. -/
lemma split_setEnvProxy {proxyUrl : JSStr} (hnl : '\n' ∉ proxyUrl)
    (envFile : Option JSStr) :
    splitOnChar '\n' (setEnvProxy proxyUrl envFile)
      = (envLinesOf envFile).filter (fun line => !jsStartsWith keyEq line)
          ++ [keyEq ++ proxyUrl] := by
  rw [setEnvProxy_eq]
  apply splitOnChar_joinChar
  · simp
  · intro l hl
    rcases List.mem_append.mp hl with hl | hl
    · exact newline_not_mem_envLinesOf (List.mem_of_mem_filter hl)
    · have hle : l = keyEq ++ proxyUrl := by simpa using hl
      subst hle
      intro hc
      rcases List.mem_append.mp hc with hc | hc
      · revert hc; decide
      · exact hnl hc

lemma findProxyLine_append_skip {ls : List JSStr}
    (h : ∀ l ∈ ls, jsStartsWith keyEq (jsTrim l) = false) (rest : List JSStr) :
    findProxyLine (ls ++ rest) = findProxyLine rest := by
  induction ls with
  | nil => rfl
  | cons l t ih =>
    have hl := h l (List.mem_cons_self _ _)
    rw [List.cons_append]
    show (if jsStartsWith keyEq (jsTrim l) then (splitOnChar '=' (jsTrim l)).get? 1
        else findProxyLine (t ++ rest)) = findProxyLine rest
    rw [hl]
    simpa using ih (fun x hx => h x (List.mem_cons_of_mem _ hx))

lemma splitOnChar_eq_keyEq_append {p : JSStr} (h : '=' ∉ p) :
    splitOnChar '=' (keyEq ++ p) = [ENV_KEY, p] := by
  have hkey : ('=' : Char) ∉ ENV_KEY := by decide
  have : keyEq ++ p = ENV_KEY ++ '=' :: p := by
    simp [keyEq]
  rw [this, splitOnChar_append_cons hkey, splitOnChar_eq_single h]


/-! ## Remaining helper lemmas -/

lemma getD_mem {α : Type} (d : α) {l : List α} {n : Nat} (h : n < l.length) :
    l.getD n d ∈ l := by
  rw [List.getD_eq_getElem?_getD, List.getElem?_eq_getElem h]
  simp only [Option.getD_some]
  exact List.getElem_mem h

lemma fetchGitHubProxies_eq_nil_iff (outs : List (Except Unit AxiosResponse)) :
    fetchGitHubProxies outs = [] ↔ ∀ o ∈ outs, sourceLines o = [] := by
  rw [List.eq_nil_iff_forall_not_mem]
  constructor
  · intro h o ho
    rw [List.eq_nil_iff_forall_not_mem]
    intro l hl
    exact h (normalizeLine l) ((mem_fetchGitHubProxies outs).mpr ⟨o, ho, l, hl, rfl⟩)
  · intro h x hx
    obtain ⟨o, ho, l, hl, rfl⟩ := (mem_fetchGitHubProxies outs).mp hx
    rw [h o ho] at hl
    exact absurd hl (List.not_mem_nil l)

/-! ## Claim theorems -/

/-- C2: if a refresh cycle fails because the fetcher returned no
candidates or because no candidate validated, `scrapeValidateAndInject`
returns `false` and performs no store write: `.env` and the pool
listing file are exactly as before the cycle. -/
theorem C2_no_mutation_on_failed_refresh (net : HealthNet)
    (srcOutcomes : List (Except Unit AxiosResponse)) (randIdx : Nat) (store : Store)
    (h : fetchGitHubProxies srcOutcomes = []
      ∨ validateProxies net (fetchGitHubProxies srcOutcomes) = []) :
    scrapeValidateAndInject net srcOutcomes randIdx store = (false, store) := by
  unfold scrapeValidateAndInject
  rcases h with h | h
  · simp [h]
  · by_cases h0 : (fetchGitHubProxies srcOutcomes).length = 0
    · simp [h0]
    · simp [h0, h]

/-- C2 witness: with no source outcomes at all the fetch is empty and
the cycle leaves the store untouched. -/
theorem C2_no_mutation_on_failed_refresh_witness :
    scrapeValidateAndInject exNet [] 0 exStore = (false, exStore) :=
  C2_no_mutation_on_failed_refresh exNet [] 0 exStore (Or.inl (by decide))

/-- C3: for every candidate list and fixed per-candidate outcomes,
`validateProxies` returns the first successes in iteration order up to
the quota of 100: the result is `take 100` of the validating
candidates, its length is `min 100 (number of successes)`, and every
returned element is a candidate that validates. -/
theorem C3_validateProxies_quota (net : HealthNet) (l : List JSStr) :
    validateProxies net l = (l.filter (validateSingleProxy net)).take 100
    ∧ (validateProxies net l).length
        = min 100 (l.filter (validateSingleProxy net)).length
    ∧ validateProxies net l ⊆ l.filter (validateSingleProxy net) := by
  refine ⟨validateProxies_eq_take net l, ?_, ?_⟩
  · rw [validateProxies_eq_take]
    simp
  · rw [validateProxies_eq_take]
    exact List.take_subset _ _

/-- C3 witness: one of the two fetched candidates validates under
`exNet`, so the pool has length `min 100 1 = 1`. -/
theorem C3_validateProxies_quota_witness :
    (validateProxies exNet (fetchGitHubProxies exOutcomes)).length
      = min 100 ((fetchGitHubProxies exOutcomes).filter
          (validateSingleProxy exNet)).length :=
  (C3_validateProxies_quota exNet (fetchGitHubProxies exOutcomes)).2.1

/-- C5: `validateSingleProxy` is a total Boolean function (every thrown
exception is absorbed by the `catch`, modelled by the `Except.error`
branch) and returns `true` exactly when the single health-check request
through the proxy produces a response with status 200; any error
outcome or non-200 status yields `false`. -/
theorem C5_validateSingleProxy_spec (net : HealthNet) (proxyUrl : JSStr) :
    validateSingleProxy net proxyUrl = true
      ↔ ∃ resp : AxiosResponse,
          net proxyUrl (agentFor proxyUrl) = .ok resp ∧ resp.status = 200 := by
  unfold validateSingleProxy
  cases h : net proxyUrl (agentFor proxyUrl) with
  | ok resp =>
    by_cases hs : resp.status = 200 <;> simp [hs]
  | error e => simp

/-- C5 witness: under `exNet` the sample proxy validates, by the
theorem applied at a concrete response. -/
theorem C5_validateSingleProxy_spec_witness :
    validateSingleProxy exNet exProxy = true :=
  (C5_validateSingleProxy_spec exNet exProxy).mpr
    ⟨⟨200, []⟩, rfl, rfl⟩

/-- C6: a failed source does not abort `fetchGitHubProxies`: whenever
one of the two sources contributes nothing and the other contributes at
least one candidate line, the result is non-empty (in either order),
and in general the result is empty exactly when every source failed or
yielded nothing. -/
theorem C6_source_failure_resilience (o1 o2 : Except Unit AxiosResponse)
    (_h1 : sourceLines o1 = []) (h2 : sourceLines o2 ≠ []) :
    fetchGitHubProxies [o1, o2] ≠ []
    ∧ fetchGitHubProxies [o2, o1] ≠ []
    ∧ ∀ outs : List (Except Unit AxiosResponse),
        (fetchGitHubProxies outs = [] ↔ ∀ o ∈ outs, sourceLines o = []) := by
  refine ⟨?_, ?_, fetchGitHubProxies_eq_nil_iff⟩
  · intro h
    exact h2 (((fetchGitHubProxies_eq_nil_iff [o1, o2]).mp h) o2 (by simp))
  · intro h
    exact h2 (((fetchGitHubProxies_eq_nil_iff [o2, o1]).mp h) o2 (by simp))

/-- C6 witness: the throwing source plus the successful source still
yield a non-empty candidate set. -/
theorem C6_source_failure_resilience_witness :
    fetchGitHubProxies [Except.error (), Except.ok exResp] ≠ [] :=
  (C6_source_failure_resilience (Except.error ()) (Except.ok exResp)
    (by decide) (by decide)).1

/-- C7: `fetchGitHubProxies` parses each successfully fetched body into
its non-empty trimmed lines, normalizes each line (prefixing `http://`
exactly when no scheme separator `://` occurs, and keeping the line
unchanged otherwise), and the returned list is deduplicated across all
sources: it has no duplicates and contains exactly the normalized
candidate lines of the successful sources. -/
theorem C7_fetch_parse_normalize_dedup (outs : List (Except Unit AxiosResponse)) :
    (fetchGitHubProxies outs).Nodup
    ∧ (∀ x : JSStr, x ∈ fetchGitHubProxies outs
        ↔ ∃ o ∈ outs, ∃ l ∈ sourceLines o, normalizeLine l = x)
    ∧ (∀ r : AxiosResponse, r.status = 200 → r.body ≠ [] →
        sourceLines (.ok r)
          = ((splitOnChar '\n' r.body).map jsTrim).filter (fun l => l ≠ []))
    ∧ (∀ line : JSStr, jsIncludes [':','/','/'] line = false
        → normalizeLine line = ['h','t','t','p',':','/','/'] ++ line)
    ∧ (∀ line : JSStr, jsIncludes [':','/','/'] line = true
        → normalizeLine line = line) := by
  refine ⟨nodup_fetchGitHubProxies outs, fun x => mem_fetchGitHubProxies outs,
    ?_, ?_, ?_⟩
  · intro r h200 hbody
    simp [sourceLines, h200, hbody]
  · intro line h
    simp [normalizeLine, h]
  · intro line h
    simp [normalizeLine, h]

/-- C7 witness: the sample fetch is duplicate-free, by the theorem at
the concrete outcomes. -/
theorem C7_fetch_parse_normalize_dedup_witness :
    (fetchGitHubProxies exOutcomes).Nodup :=
  (C7_fetch_parse_normalize_dedup exOutcomes).1

/-- C8: when `.env` holds a (non-falsy) active proxy and its
re-validation succeeds, `checkCurrentProxy` leaves the store completely
untouched — for every possible fetcher behavior and random index, i.e.
the refresh pipeline is never consulted. -/
theorem C8_check_valid_proxy_untouched (net : HealthNet) (store : Store)
    (cur : JSStr) (hcur : getCurrentProxyFromEnv store.envFile = some cur)
    (hne : cur ≠ []) (hok : validateSingleProxy net cur = true)
    (srcOutcomes : List (Except Unit AxiosResponse)) (randIdx : Nat) :
    checkCurrentProxy net srcOutcomes randIdx store = store := by
  unfold checkCurrentProxy
  rw [hcur]
  simp [hne, hok]

/-- C8 witness: `exStore` names `exProxy`, which `exNet` validates, so
the check cycle is a no-op on the store. -/
theorem C8_check_valid_proxy_untouched_witness :
    checkCurrentProxy exNet exOutcomes 3 exStore = exStore :=
  C8_check_valid_proxy_untouched exNet exStore exProxy (by decide) (by decide)
    (by decide) exOutcomes 3

/-- C1: after a successful refresh (`scrapeValidateAndInject` returning
`true`), the active proxy written to `.env` is a member of the valid
list written to the pool listing file in the same snapshot: the store
holds the pool file `valid.join('\n')`, the chosen endpoint is an
element of `valid`, and `.env` was rewritten by `setEnvProxy` with that
endpoint.  `randIdx` models `Math.floor(Math.random()*valid.length)`,
hence the in-range hypothesis. -/
theorem C1_active_proxy_in_pool (net : HealthNet)
    (srcOutcomes : List (Except Unit AxiosResponse)) (randIdx : Nat) (store : Store)
    (hidx : randIdx < (validateProxies net (fetchGitHubProxies srcOutcomes)).length)
    (hres : (scrapeValidateAndInject net srcOutcomes randIdx store).1 = true) :
    (scrapeValidateAndInject net srcOutcomes randIdx store).2.poolFile
        = some (joinChar '\n' (validateProxies net (fetchGitHubProxies srcOutcomes)))
    ∧ (validateProxies net (fetchGitHubProxies srcOutcomes)).getD randIdx []
        ∈ validateProxies net (fetchGitHubProxies srcOutcomes)
    ∧ (scrapeValidateAndInject net srcOutcomes randIdx store).2.envFile
        = some (setEnvProxy
            ((validateProxies net (fetchGitHubProxies srcOutcomes)).getD randIdx [])
            store.envFile) := by
  have hmem := getD_mem [] hidx
  by_cases h0 : (fetchGitHubProxies srcOutcomes).length = 0
  · exfalso
    revert hres
    unfold scrapeValidateAndInject
    simp [h0]
  · by_cases h1 : (validateProxies net (fetchGitHubProxies srcOutcomes)).length = 0
    · exfalso
      revert hres
      unfold scrapeValidateAndInject
      simp [h0, h1]
    · refine ⟨?_, hmem, ?_⟩ <;>
        · unfold scrapeValidateAndInject
          simp [h0, h1]

/-- C1 witness: with the sample fetch and oracle the refresh succeeds
and installs the only valid proxy. -/
theorem C1_active_proxy_in_pool_witness :
    (scrapeValidateAndInject exNet exOutcomes 0 exStore).2.poolFile
        = some (joinChar '\n' (validateProxies exNet (fetchGitHubProxies exOutcomes)))
    ∧ (validateProxies exNet (fetchGitHubProxies exOutcomes)).getD 0 []
        ∈ validateProxies exNet (fetchGitHubProxies exOutcomes)
    ∧ (scrapeValidateAndInject exNet exOutcomes 0 exStore).2.envFile
        = some (setEnvProxy
            ((validateProxies exNet (fetchGitHubProxies exOutcomes)).getD 0 [])
            exStore.envFile) :=
  C1_active_proxy_in_pool exNet exOutcomes 0 exStore (by decide) (by decide)

/-- C9 counterexample: the round-trip fails for the prior `.env`
content `" PROXY_SERVER=old"` (a line whose *trimmed* form carries the
key) and the new value new, which satisfies all conditions of the claim
(non-empty, no newline, no equals sign); the read-back returns the
stale `"old"` because `setEnvProxy` filters untrimmed lines while
`getCurrentProxyFromEnv` matches trimmed ones. -/
theorem C9_roundtrip_counterexample :
    getCurrentProxyFromEnv
        (some (setEnvProxy "new".toList (some (' ' :: keyEq ++ "old".toList))))
      = some "old".toList
    ∧ getCurrentProxyFromEnv
        (some (setEnvProxy "new".toList (some (' ' :: keyEq ++ "old".toList))))
      ≠ some "new".toList
    ∧ getCurrentProxyFromEnv (some (setEnvProxy "new ".toList none))
      ≠ some "new ".toList := by
  refine ⟨by decide, by decide, by decide⟩

/-- C9 (amended): the round-trip `setEnvProxy` then
`getCurrentProxyFromEnv` returns exactly `p` for every non-empty `p`
with no newline, no `=`, and no leading/trailing whitespace
(`jsTrim p = p`), provided additionally that no line of the prior
`.env` content acquires the `PROXY_SERVER=` prefix only after
trimming. -/
theorem C9_roundtrip_amended (p : JSStr) (envFile : Option JSStr)
    (hne : p ≠ []) (hnl : '\n' ∉ p) (heq : '=' ∉ p) (htrim : jsTrim p = p)
    (hprior : ∀ l ∈ envLinesOf envFile,
      jsStartsWith keyEq (jsTrim l) = true → jsStartsWith keyEq l = true) :
    getCurrentProxyFromEnv (some (setEnvProxy p envFile)) = some p := by
  show findProxyLine (splitOnChar '\n' (setEnvProxy p envFile)) = some p
  rw [split_setEnvProxy hnl]
  have hskip : ∀ l ∈ (envLinesOf envFile).filter
      (fun line => !jsStartsWith keyEq line),
      jsStartsWith keyEq (jsTrim l) = false := by
    intro l hl
    have hmem := List.mem_of_mem_filter hl
    have hfilt : (!jsStartsWith keyEq l) = true := (List.mem_filter.mp hl).2
    have hfalse : jsStartsWith keyEq l = false := by
      cases h : jsStartsWith keyEq l with
      | false => rfl
      | true => rw [h] at hfilt; exact absurd hfilt (by decide)
    cases h : jsStartsWith keyEq (jsTrim l) with
    | false => rfl
    | true => rw [hprior l hmem h] at hfalse; exact absurd hfalse (by decide)
  rw [findProxyLine_append_skip hskip]
  show (if jsStartsWith keyEq (jsTrim (keyEq ++ p))
      then (splitOnChar '=' (jsTrim (keyEq ++ p))).get? 1
      else findProxyLine []) = some p
  rw [jsTrim_keyEq_append hne htrim, splitOnChar_eq_keyEq_append heq,
    jsStartsWith_append]
  rfl

/-- C9 witness: a clean round-trip on top of a well-formed prior
`.env`. -/
theorem C9_roundtrip_amended_witness :
    getCurrentProxyFromEnv
        (some (setEnvProxy exProxy (some (keyEq ++ "old".toList))))
      = some exProxy :=
  C9_roundtrip_amended exProxy (some (keyEq ++ "old".toList))
    (by decide) (by decide) (by decide) (by decide) (by decide)

/-- C10 counterexample: for the unrestricted argument
`proxyUrl = "\nPROXY_SERVER="` the file written by `setEnvProxy`
contains two lines starting with `PROXY_SERVER=`, not exactly one. -/
theorem C10_single_key_line_counterexample :
    ((splitOnChar '\n' (setEnvProxy ('\n' :: keyEq) none)).filter
        (fun l => jsStartsWith keyEq l)).length ≠ 1 := by
  decide

/-- C10 (amended): for every `proxyUrl` containing no newline,
`setEnvProxy` writes exactly the old lines that do not start with
`PROXY_SERVER=`, in their original order, followed by the single final
line `PROXY_SERVER=proxyUrl`; no kept old line starts with the key and
the final line does. -/
theorem C10_setEnvProxy_frame (p : JSStr) (envFile : Option JSStr)
    (hnl : '\n' ∉ p) :
    splitOnChar '\n' (setEnvProxy p envFile)
      = (envLinesOf envFile).filter (fun line => !jsStartsWith keyEq line)
          ++ [keyEq ++ p]
    ∧ (∀ l ∈ (envLinesOf envFile).filter (fun line => !jsStartsWith keyEq line),
        jsStartsWith keyEq l = false)
    ∧ jsStartsWith keyEq (keyEq ++ p) = true := by
  refine ⟨split_setEnvProxy hnl envFile, ?_, jsStartsWith_append _ _⟩
  intro l hl
  have hfilt : (!jsStartsWith keyEq l) = true := (List.mem_filter.mp hl).2
  cases h : jsStartsWith keyEq l with
  | false => rfl
  | true => rw [h] at hfilt; exact absurd hfilt (by decide)

/-- C10 witness: rewriting an `.env` holding an unrelated line and a
stale key line keeps the unrelated line and ends with the new key
line. -/
theorem C10_setEnvProxy_frame_witness :
    splitOnChar '\n' (setEnvProxy exProxy (some "A=1\nPROXY_SERVER=old".toList))
      = (envLinesOf (some "A=1\nPROXY_SERVER=old".toList)).filter
          (fun line => !jsStartsWith keyEq line) ++ [keyEq ++ exProxy] :=
  (C10_setEnvProxy_frame exProxy (some "A=1\nPROXY_SERVER=old".toList)
    (by decide)).1
